import Mathlib

/-!
Verification development for the Slack feedback bot (`main.py`).

The Python source is shallowly embedded as pure Lean functions:

* strings are modelled as `String` / `List Char`;
* the `users.list` HTTP response is a parameter of type `Option (List Member)`
  (`none` models a response with `ok = false`);
* the `conversations.history` HTTP response is a parameter of type
  `Option (List String)` (`none` models `ok = false`);
* a handler's observable behaviour is an `Effects` record collecting the rows
  appended to the spreadsheet, the messages posted to Slack, and the HTTP
  response returned to the caller;
* `difflib.SequenceMatcher(None, a, b).ratio()` is embedded exactly for
  strings shorter than 200 characters (the autojunk popularity heuristic,
  which only triggers when `len(b) >= 200`, is not modelled); the float
  result is modelled as the exact rational `2 * M / (len a + len b)`.
-/

/-! ### Basic string machinery (Python `startswith`, `endswith`, `in`, `lower`, `lstrip`) -/

/-- Boolean test: the first list is an initial segment of the second
(Python `str.startswith`). -/
def initSegB : List Char → List Char → Bool
  | [], _ => true
  | _ :: _, [] => false
  | x :: xs, y :: ys => x == y && initSegB xs ys

/-- Boolean test: the first list occurs as a contiguous segment of the second
(Python `a in b` on strings). -/
def subSegB : List Char → List Char → Bool
  | a, [] => a.isEmpty
  | a, y :: ys => initSegB a (y :: ys) || subSegB a ys

/-- Boolean test: the first list is a final segment of the second
(Python `str.endswith`). -/
def endSegB (a b : List Char) : Bool := initSegB a.reverse b.reverse

/-- Substring test on `String` (Python `a in b`). -/
def subStr (a b : String) : Bool := subSegB a.data b.data

/-- Python `str.lower()` (restricted to the ASCII case mapping, which is all
the source relies on). -/
def pyLower (s : String) : String := String.mk (s.data.map Char.toLower)

/-- Python `str.lstrip('@')`: drop every leading `'@'`. -/
def pyLstripAt (s : String) : String := String.mk (s.data.dropWhile (fun c => c == '@'))

/-! ### Embedding of `difflib.SequenceMatcher.ratio`

`SequenceMatcher(None, a, b)` (no junk, autojunk inactive for `len b < 200`)
finds the longest matching block: the triple `(i, j, k)` with
`a[i:i+k] = b[j:j+k]`, `k` maximal, and among maximal blocks the one starting
earliest in `a`, then earliest in `b` (this tie-break is documented in
`difflib.find_longest_match`).  `get_matching_blocks` recurses on the pieces
left and right of that block; `ratio` is `2 * (total matched) / (len a + len b)`,
and `1.0` when both strings are empty. -/

/-- Length of the longest common initial run of two character lists. -/
def runL : List Char → List Char → Nat
  | a :: as, b :: bs => if a = b then runL as bs + 1 else 0
  | _, _ => 0

/-- Longest matching block `(i, j, k)` of two character lists, with difflib's
tie-break: maximal `k`, then minimal `i`, then minimal `j`.  The scan visits
start positions in lexicographic order and keeps a strictly improving best,
which realises exactly that tie-break.  `(0, 0, 0)` when nothing matches. -/
def bestTriple (a b : List Char) : Nat × Nat × Nat :=
  (List.range a.length).foldl (fun acc i =>
    (List.range b.length).foldl (fun acc2 j =>
      let k := runL (a.drop i) (b.drop j)
      if acc2.2.2 < k then (i, j, k) else acc2) acc) (0, 0, 0)

/-- Fuelled recursion computing the total size of difflib's matching blocks:
take the longest matching block and recurse on the parts strictly to its left
and strictly to its right.  Each recursive call strictly shrinks the first
list, so `a.length + 1` units of fuel always suffice. -/
def mtFuel : Nat → List Char → List Char → Nat
  | 0, _, _ => 0
  | fuel+1, a, b =>
    let t := bestTriple a b
    if t.2.2 = 0 then 0
    else mtFuel fuel (a.take t.1) (b.take t.2.1) + t.2.2 +
         mtFuel fuel (a.drop (t.1 + t.2.2)) (b.drop (t.2.1 + t.2.2))

/-- Total number of matched characters reported by
`SequenceMatcher.get_matching_blocks`. -/
def matchingTotal (a b : List Char) : Nat := mtFuel (a.length + 1) a b

/-- Embedding of `SequenceMatcher(None, a, b).ratio()` as an exact rational:
`2 * M / (len a + len b)`, and `1` when both strings are empty
(cf. `difflib._calculate_ratio`). -/
def ratioQ (a b : List Char) : ℚ :=
  if a.length + b.length = 0 then 1
  else mkRat (2 * matchingTotal a b) (a.length + b.length)

/-! ### Member profiles and the fuzzy resolver (`find_user_id_by_display_name`) -/

/-- The `profile` sub-object of a Slack member, as read by the source:
`display_name`, `real_name` and `name`. -/
structure Profile where
  display_name : String
  real_name : String
  name : String
deriving DecidableEq

/-- A member record from `users.list`, as read by the source:
`id`, `deleted`, `is_bot` and `profile`. -/
structure Member where
  id : String
  deleted : Bool
  is_bot : Bool
  profile : Profile
deriving DecidableEq

/-- The combined lowercase name text
`f"{display_nm} {real_nm} {username}".lower()` built in
`find_user_id_by_display_name`. -/
def pyCombo (m : Member) : String :=
  pyLower (m.profile.display_name ++ " " ++ m.profile.real_name ++ " " ++ m.profile.name)

/-- The source's `two_way_partial(a, b)`: `(a in b) or (b in a)`. -/
def twoWayContain (a b : String) : Bool := subStr a b || subStr b a

/-- Similarity score used in the selection loop:
`SequenceMatcher(None, name_lower, combo_str).ratio()`. -/
def scoreOf (name : String) (m : Member) : ℚ :=
  ratioQ (pyLower name).data (pyCombo m).data

/-- The candidate list built by the first loop of
`find_user_id_by_display_name`: skip the `USLACKBOT` pseudo-user, skip
deleted or bot members, keep members passing `two_way_partial` of the
lowercase query against the combined name text. -/
def candidatesOf (members : List Member) (name : String) : List Member :=
  members.filter (fun m =>
    !(m.id == "USLACKBOT") && !m.deleted && !m.is_bot &&
    twoWayContain (pyLower name) (pyCombo m))

/-- The second loop of `find_user_id_by_display_name`: starting from
`best_user = None, best_score = 0.0`, replace the best pair whenever
`ratio > best_score`. -/
def selLoop {α : Type} (g : α → ℚ) (l : List α) (acc : Option α × ℚ) : Option α × ℚ :=
  l.foldl (fun a m => if a.2 < g m then (some m, g m) else a) acc

/-- Running maximum of a score function over a list (used to state what the
selection loop returns). -/
def runMax {α : Type} (g : α → ℚ) (l : List α) (s : ℚ) : ℚ :=
  l.foldl (fun s m => max s (g m)) s

/-- Maximal similarity score over the retained candidates (with the loop's
initial value `0.0`). -/
def bestScoreOf (members : List Member) (name : String) : ℚ :=
  runMax (scoreOf name) (candidatesOf members name) 0

/-- Embedding of `find_user_id_by_display_name(name)`.  The `users.list` response is the
`apiResult` parameter: `none` models `data.get("ok")` being falsy (the
function returns `None`); `some members` models a successful listing.
Mirrors the source: build candidates, return `None` if there are none,
otherwise run the strict-improvement selection loop and return the best
member's id (`None` if the loop never selected anyone). -/
def find_user_id_by_display_name (apiResult : Option (List Member)) (name : String) :
    Option String :=
  match apiResult with
  | none => none
  | some members =>
    let candidates := candidatesOf members name
    if candidates.isEmpty then none
    else
      match (selLoop (scoreOf name) candidates (none, 0)).1 with
      | some u => some u.id
      | none => none

/-! ### Person-reference resolution shared by `/mypraise` and `/myfeedback` -/

/-- The exact-mention test of both handlers:
`typed_person.startswith("<@U") and typed_person.endswith(">")`. -/
def isMentionTok (t : String) : Bool :=
  initSegB "<@U".data t.data && endSegB ">".data t.data

/-- The resolution step appearing verbatim in `handle_mypraise` and
`handle_myfeedback`: on an exact mention, take `typed_person[2:-1]` as the id
and reuse the token as the mention; otherwise strip leading `@`, run the
fuzzy lookup, and on a miss fall back to the literal token.  Returns
`(found_id, to_mention)`. -/
def resolveMention (apiResult : Option (List Member)) (typed_person : String) :
    Option String × String :=
  if isMentionTok typed_person then
    (some (String.mk ((typed_person.data.drop 2).dropLast)), typed_person)
  else
    match find_user_id_by_display_name apiResult (pyLstripAt typed_person) with
    | some id => (some id, "<@" ++ id ++ ">")
    | none => (none, typed_person)

/-! ### Argument splitting (Python `str.split(" ", maxsplit)`) -/

/-- Split off everything before the first character satisfying `p`:
`some (before, after)`, or `none` when no such character occurs. -/
def splitOnceBy (p : Char → Bool) : List Char → Option (List Char × List Char)
  | [] => none
  | c :: cs =>
    if p c then some ([], cs)
    else (splitOnceBy p cs).map (fun x => (c :: x.1, x.2))

/-- Repeated splitting with a bounded number of splits (the shared engine of
`pySplit` and `wsSplit`). -/
def splitByAux (p : Char → Bool) : Nat → List Char → List (List Char)
  | 0, s => [s]
  | n+1, s =>
    match splitOnceBy p s with
    | none => [s]
    | some x => x.1 :: splitByAux p n x.2

/-- Python `s.split(" ", n)`: split on each single ASCII space, at most `n`
splits, keeping empty fields. -/
def pySplit (n : Nat) (s : List Char) : List (List Char) :=
  splitByAux (fun c => c == ' ') n s

/-- Python whitespace characters. -/
def isPySpace (c : Char) : Bool :=
  c == ' ' || c == '\t' || c == '\n' || c == '\r' || c == '\x0b' || c == '\x0c'

/-- Modelled from the spec's words ("splits `rawText` on whitespace, stopping
after `maxSplits` splits"): like `pySplit`, but splitting at any whitespace
character.  Used only to compare the spec's description of the argument
parser with the source's space-only split. -/
def wsSplit (n : Nat) (s : List Char) : List (List Char) :=
  splitByAux isPySpace n s

/-- Version of `pySplit` on `String`s: `text.split(" ", n)`. -/
def pySplitStr (n : Nat) (s : String) : List String :=
  (pySplit n s.data).map String.mk

/-- Version of `wsSplit` on `String`s. -/
def wsSplitStr (n : Nat) (s : String) : List String :=
  (wsSplit n s.data).map String.mk

/-- Join character lists with a single space (inverse of space splitting,
used to state that the trailing field is never further split). -/
def joinSp : List (List Char) → List Char
  | [] => []
  | [x] => x
  | x :: y :: t => x ++ ' ' :: joinSp (y :: t)

/-! ### Handlers and their observable effects -/

/-- Observable behaviour of one handler invocation: rows appended to the
Google sheet, messages posted to Slack channels (channel, text), and the HTTP
response (body, status). -/
structure Effects where
  sheetRows : List (List String)
  posts : List (String × String)
  response : String × Nat
deriving DecidableEq

/-- Embedding of `store_in_sheet(row_data)`: when the worksheet is available (`sheetOk`),
append the row with the UTC timestamp appended as the last field; when the
worksheet is `None`, store nothing.  The timestamp is the `ts` parameter. -/
def store_in_sheet (sheetOk : Bool) (ts : String) (row_data : List String) :
    List (List String) :=
  if sheetOk then [row_data ++ [ts]] else []

/-- The usage string of `/mypraise`. -/
def praiseUsage : String :=
  "Usage: /mypraise <@UserID> Value Message\nor: /mypraise @Name Value Message\nExample: /mypraise @Ariel Performance Great job!"

/-- The usage string of `/myfeedback`. -/
def feedbackUsage : String :=
  "Usage: /myfeedback <@UserID> Feedback or /myfeedback @Name Feedback"

/-- Embedding of `handle_mypraise(from_user_id, text)`.  `text.split(" ", 2)`; fewer than
three fields returns the usage string with no side effect; otherwise resolve
the person token, store `["praise", from_mention, to_mention, value,
message]` (timestamp appended by `store_in_sheet`), post the announcement to
`#s44_core_team`, and acknowledge. -/
def handle_mypraise (apiResult : Option (List Member)) (sheetOk : Bool) (ts : String)
    (from_user_id text : String) : Effects :=
  match pySplitStr 2 text with
  | typed_person :: praise_value :: praise_message :: _ =>
    let from_mention := "<@" ++ from_user_id ++ ">"
    let to_mention := (resolveMention apiResult typed_person).2
    { sheetRows := store_in_sheet sheetOk ts
        ["praise", from_mention, to_mention, praise_value, praise_message]
      posts := [("#s44_core_team",
        from_mention ++ " praised " ++ to_mention ++ " for *" ++ praise_value ++
          "*:\n> " ++ praise_message)]
      response := ("Praise noted and posted to #s44_core_team!", 200) }
  | _ => { sheetRows := [], posts := [], response := (praiseUsage, 200) }

/-- Embedding of `handle_myfeedback(from_user_id, text)`.  `text.split(" ", 1)`; fewer
than two fields returns the usage string with no side effect; otherwise
resolve the person token and store `["feedback", from_mention, to_mention,
"", message]` (timestamp appended by `store_in_sheet`).  Nothing is ever
posted to a channel. -/
def handle_myfeedback (apiResult : Option (List Member)) (sheetOk : Bool) (ts : String)
    (from_user_id text : String) : Effects :=
  match pySplitStr 1 text with
  | typed_person :: feedback_message :: _ =>
    let from_mention := "<@" ++ from_user_id ++ ">"
    let to_mention := (resolveMention apiResult typed_person).2
    { sheetRows := store_in_sheet sheetOk ts
        ["feedback", from_mention, to_mention, "", feedback_message]
      posts := []
      response := ("Feedback saved (private).", 200) }
  | _ => { sheetRows := [], posts := [], response := (feedbackUsage, 200) }

/-- Join strings with newlines (Python `"\n".join`). -/
def joinNlStr : List String → String
  | [] => ""
  | [x] => x
  | x :: y :: t => x ++ "\n" ++ joinNlStr (y :: t)

/-- Embedding of `get_notes(channel_id, target)`.  The `conversations.history` response is
the `history` parameter: `none` models `ok` being falsy.  Returns the
messages containing `target` as a literal substring, or the "no notes"
response; never stores and never posts. -/
def get_notes (history : Option (List String)) (target : String) : Effects :=
  match history with
  | none => { sheetRows := [], posts := [], response := ("Could not retrieve messages.", 200) }
  | some messages =>
    let matching := messages.filter (fun t => subStr target t)
    if matching.isEmpty then
      { sheetRows := [], posts := [],
        response := ("No notes found referencing " ++ target ++ ".", 200) }
    else
      { sheetRows := [], posts := [],
        response := ("Here are notes referencing " ++ target ++ ":\n" ++
          joinNlStr (matching.map (fun m => "- " ++ m)), 200) }

/-- Embedding of `handle_mynotez(channel_id, text)`.  `text.split(" ", 1)`; a lone
case-insensitive `get` yields the get-usage string; `get` plus a target runs
`get_notes`; any other lone token yields the note-usage string; otherwise the
note is posted to the originating channel and acknowledged — nothing is ever
stored in the sheet, and the member directory is never consulted (the
`apiResult` parameter is accepted only to state that independence; the source
never calls `find_user_id_by_display_name` here). -/
def handle_mynotez (apiResult : Option (List Member)) (history : Option (List String))
    (channel_id text : String) : Effects :=
  match pySplitStr 1 text with
  | [p0] =>
    if pyLower p0 = "get" then
      { sheetRows := [], posts := [], response := ("Usage: /mynotez get @Name", 200) }
    else
      { sheetRows := [], posts := [], response := ("Usage: /mynotez @Name Note text", 200) }
  | p0 :: p1 :: _ =>
    if pyLower p0 = "get" then get_notes history p1
    else
      { sheetRows := [],
        posts := [(channel_id, "Note about " ++ p0 ++ ": " ++ p1)],
        response := ("Saved note about " ++ p0 ++ ".", 200) }
  | [] => { sheetRows := [], posts := [], response := ("", 200) }

/-! ### Helper lemmas -/

theorem foldl_pres {α β : Type _} (P : β → Prop) (f : β → α → β) :
    ∀ (l : List α) (b : β), P b → (∀ x ∈ l, ∀ y, P y → P (f y x)) → P (l.foldl f b) := by
  intro l
  induction l with
  | nil => intro b hb _; simpa using hb
  | cons a t ih =>
    intro b hb hf
    simp only [List.foldl_cons]
    exact ih (f b a) (hf a (List.mem_cons_self a t) b hb)
      (fun x hx y hy => hf x (List.mem_cons_of_mem a hx) y hy)

theorem runL_le : ∀ a b : List Char, runL a b ≤ a.length ∧ runL a b ≤ b.length := by
  intro a
  induction a with
  | nil => intro b; cases b <;> simp [runL]
  | cons x xs ih =>
    intro b
    cases b with
    | nil => simp [runL]
    | cons y ys =>
      by_cases h : x = y
      · have := ih ys
        simp only [runL, if_pos h, List.length_cons]
        omega
      · simp [runL, if_neg h]

theorem bestTriple_le (a b : List Char) :
    (bestTriple a b).1 + (bestTriple a b).2.2 ≤ a.length ∧
    (bestTriple a b).2.1 + (bestTriple a b).2.2 ≤ b.length := by
  unfold bestTriple
  apply foldl_pres (P := fun acc : Nat × Nat × Nat =>
    acc.1 + acc.2.2 ≤ a.length ∧ acc.2.1 + acc.2.2 ≤ b.length)
  · simp
  · intro i hi acc hacc
    apply foldl_pres (P := fun acc : Nat × Nat × Nat =>
      acc.1 + acc.2.2 ≤ a.length ∧ acc.2.1 + acc.2.2 ≤ b.length)
    · exact hacc
    · intro j hj acc2 hacc2
      dsimp only
      split_ifs with h
      · have hra := (runL_le (a.drop i) (b.drop j)).1
        have hrb := (runL_le (a.drop i) (b.drop j)).2
        rw [List.length_drop] at hra
        rw [List.length_drop] at hrb
        have hia : i < a.length := List.mem_range.mp hi
        have hjb : j < b.length := List.mem_range.mp hj
        constructor
        · show i + runL (a.drop i) (b.drop j) ≤ a.length
          omega
        · show j + runL (a.drop i) (b.drop j) ≤ b.length
          omega
      · exact hacc2

theorem mtFuel_le : ∀ (fuel : Nat) (a b : List Char),
    mtFuel fuel a b ≤ a.length ∧ mtFuel fuel a b ≤ b.length := by
  intro fuel
  induction fuel with
  | zero => intro a b; simp [mtFuel]
  | succ f ih =>
    intro a b
    have hb := bestTriple_le a b
    simp only [mtFuel]
    split_ifs with hk
    · simp
    · have h1 := ih (a.take (bestTriple a b).1) (b.take (bestTriple a b).2.1)
      have h2 := ih (a.drop ((bestTriple a b).1 + (bestTriple a b).2.2))
                    (b.drop ((bestTriple a b).2.1 + (bestTriple a b).2.2))
      have hta : (a.take (bestTriple a b).1).length ≤ (bestTriple a b).1 := by
        rw [List.length_take]; exact inf_le_left
      have htb : (b.take (bestTriple a b).2.1).length ≤ (bestTriple a b).2.1 := by
        rw [List.length_take]; exact inf_le_left
      have hda : (a.drop ((bestTriple a b).1 + (bestTriple a b).2.2)).length =
          a.length - ((bestTriple a b).1 + (bestTriple a b).2.2) := List.length_drop _ _
      have hdb : (b.drop ((bestTriple a b).2.1 + (bestTriple a b).2.2)).length =
          b.length - ((bestTriple a b).2.1 + (bestTriple a b).2.2) := List.length_drop _ _
      constructor
      · have := le_trans h1.1 hta
        have := le_trans h2.1 (le_of_eq hda)
        omega
      · have := le_trans h1.2 htb
        have := le_trans h2.2 (le_of_eq hdb)
        omega

theorem ratioQ_nonneg_le_one (a b : List Char) : 0 ≤ ratioQ a b ∧ ratioQ a b ≤ 1 := by
  unfold ratioQ
  split_ifs with h
  · norm_num
  · have hm := mtFuel_le (a.length + 1) a b
    have hmm : 2 * matchingTotal a b ≤ a.length + b.length := by
      unfold matchingTotal; omega
    rw [Rat.mkRat_eq_div]
    constructor
    · apply div_nonneg <;> positivity
    · rw [div_le_one (by positivity)]
      exact_mod_cast hmm

theorem runMax_cons {α : Type} (g : α → ℚ) (m : α) (t : List α) (s : ℚ) :
    runMax g (m :: t) s = runMax g t (max s (g m)) := rfl

theorem le_runMax {α : Type} (g : α → ℚ) : ∀ (l : List α) (s : ℚ), s ≤ runMax g l s := by
  intro l
  induction l with
  | nil => intro s; simp [runMax]
  | cons m t ih => intro s; rw [runMax_cons]; exact le_trans (le_max_left _ _) (ih _)

theorem runMax_ge {α : Type} (g : α → ℚ) :
    ∀ (l : List α) (s : ℚ) (m : α), m ∈ l → g m ≤ runMax g l s := by
  intro l
  induction l with
  | nil => intro s m hm; simp at hm
  | cons x t ih =>
    intro s m hm
    rw [runMax_cons]
    rcases List.mem_cons.mp hm with h | h
    · subst h; exact le_trans (le_max_right _ _) (le_runMax g t _)
    · exact ih _ m h

theorem selLoop_cons {α : Type} (g : α → ℚ) (m : α) (t : List α) (b : Option α) (s : ℚ) :
    selLoop g (m :: t) (b, s) = selLoop g t (if s < g m then (some m, g m) else (b, s)) := rfl

theorem selLoop_stay {α : Type} (g : α → ℚ) : ∀ (l : List α) (b : Option α) (s : ℚ),
    runMax g l s = s → (selLoop g l (b, s)).1 = b := by
  intro l
  induction l with
  | nil => intro b s _; rfl
  | cons m t ih =>
    intro b s h
    rw [runMax_cons] at h
    have h1 : max s (g m) ≤ s := le_trans (le_runMax g t _) (le_of_eq h)
    have h2 : g m ≤ s := le_trans (le_max_right _ _) h1
    have h3 : max s (g m) = s := max_eq_left h2
    rw [selLoop_cons, if_neg (not_lt.mpr h2)]
    rw [h3] at h
    exact ih b s h

theorem selLoop_mem {α : Type} (g : α → ℚ) : ∀ (l : List α) (b : Option α) (s : ℚ) (u : α),
    (selLoop g l (b, s)).1 = some u → u ∈ l ∨ b = some u := by
  intro l
  induction l with
  | nil => intro b s u h; exact Or.inr h
  | cons m t ih =>
    intro b s u h
    rw [selLoop_cons] at h
    by_cases hc : s < g m
    · rw [if_pos hc] at h
      rcases ih _ _ u h with h2 | h2
      · exact Or.inl (List.mem_cons_of_mem _ h2)
      · rw [Option.some_inj.mp h2]
        exact Or.inl (List.mem_cons_self _ _)
    · rw [if_neg hc] at h
      rcases ih _ _ u h with h2 | h2
      · exact Or.inl (List.mem_cons_of_mem _ h2)
      · exact Or.inr h2

theorem selLoop_find {α : Type} (g : α → ℚ) : ∀ (l : List α) (b : Option α) (s : ℚ),
    s < runMax g l s →
    (selLoop g l (b, s)).1 = l.find? (fun m => decide (runMax g l s ≤ g m)) := by
  intro l
  induction l with
  | nil => intro b s h; simp [runMax] at h
  | cons m t ih =>
    intro b s h
    rw [selLoop_cons]
    by_cases hc : s < g m
    · have hmax : max s (g m) = g m := max_eq_right (le_of_lt hc)
      rw [if_pos hc]
      rw [runMax_cons, hmax] at h ⊢
      by_cases h2 : runMax g t (g m) = g m
      · rw [List.find?_cons_of_pos _ (by simp [h2])]
        exact selLoop_stay g t (some m) (g m) h2
      · have hlt : g m < runMax g t (g m) :=
          lt_of_le_of_ne (le_runMax g t (g m)) (fun e => h2 e.symm)
        rw [List.find?_cons_of_neg _ (by simp only [decide_eq_true_eq]; exact not_le.mpr hlt)]
        exact ih (some m) (g m) hlt
    · have hle : g m ≤ s := not_lt.mp hc
      have hmax : max s (g m) = s := max_eq_left hle
      rw [if_neg hc]
      rw [runMax_cons, hmax] at h ⊢
      rw [List.find?_cons_of_neg _
        (by simp only [decide_eq_true_eq]; exact not_le.mpr (lt_of_le_of_lt hle h))]
      exact ih b s h

/-! ### Claim theorems -/

/-- C1: for every token that begins with `<@U` and ends with `>`, resolution
takes the exact-mention fast path: the returned user id is exactly the
token's interior `token[2:-1]`, the mention text is the original token, the
result does not depend on the member directory (the `apiResult` parameter is
universally quantified and absent from the conclusion, so no `users.list`
lookup can influence it), and the returned id is always `some _` (the path
never fails). -/
theorem mention_fast_path (apiResult : Option (List Member)) (t : String)
    (h1 : initSegB "<@U".data t.data = true) (h2 : endSegB ">".data t.data = true) :
    resolveMention apiResult t = (some (String.mk ((t.data.drop 2).dropLast)), t) := by
  simp [resolveMention, isMentionTok, h1, h2]

/-- Witness for C1 at the concrete token `<@U042>`. -/
theorem mention_fast_path_w :
    resolveMention none "<@U042>" = (some "U042", "<@U042>") :=
  mention_fast_path none "<@U042>" (by decide) (by decide)

/-- C2 counterexample: with the empty (non-mention) query and a single
perfectly valid member, the two-way containment pre-filter retains the member
(the empty string is a substring of everything), yet
`find_user_id_by_display_name` returns `none` rather than that maximal-score
candidate's id: every score is `0.0` and the loop's `ratio > best_score` test
never fires against the initial `best_score = 0.0`. -/
theorem fuzzy_best_cex :
    candidatesOf [⟨"U3", false, false, ⟨"al", "al", "al"⟩⟩] "" =
      [⟨"U3", false, false, ⟨"al", "al", "al"⟩⟩] ∧
    find_user_id_by_display_name (some [⟨"U3", false, false, ⟨"al", "al", "al"⟩⟩]) "" =
      none := by
  decide

/-- C2 (amended): whenever the retained candidate set is non-empty AND the
maximal similarity score over it is strictly positive (which fails only for
the empty query), fuzzy resolution returns the id of the first retained
candidate, in member-list order, whose score attains the maximum — i.e. the
maximal-score candidate with earliest-wins tie-breaking, since a later
candidate replaces the current best only on a strictly greater score; and
every retained candidate's score is bounded by that maximum. -/
theorem fuzzy_best_pick (members : List Member) (name : String)
    (hne : candidatesOf members name ≠ [])
    (hpos : 0 < bestScoreOf members name) :
    find_user_id_by_display_name (some members) name =
      ((candidatesOf members name).find?
        (fun m => decide (bestScoreOf members name ≤ scoreOf name m))).map Member.id ∧
    ∀ m ∈ candidatesOf members name, scoreOf name m ≤ bestScoreOf members name := by
  constructor
  · rcases hcs : candidatesOf members name with _ | ⟨c, cs⟩
    · exact absurd hcs hne
    · have hbs : bestScoreOf members name = runMax (scoreOf name) (c :: cs) 0 := by
        unfold bestScoreOf; rw [hcs]
      have hpos2 : (0:ℚ) < runMax (scoreOf name) (c :: cs) 0 := by rw [← hbs]; exact hpos
      simp only [find_user_id_by_display_name, hcs, List.isEmpty_cons, Bool.false_eq_true,
        if_false]
      rw [selLoop_find (scoreOf name) (c :: cs) none 0 hpos2, hbs]
      cases hf : (c :: cs).find? (fun m => decide (runMax (scoreOf name) (c :: cs) 0 ≤ scoreOf name m)) with
      | none => rfl
      | some u => rfl
  · intro m hm
    exact runMax_ge (scoreOf name) _ 0 m hm

/-- Witness for C2 (amended) at a concrete one-member list. -/
theorem fuzzy_best_pick_w :
    find_user_id_by_display_name (some [⟨"U2", false, false, ⟨"bo", "bo", "bo"⟩⟩]) "bo" =
      ((candidatesOf [⟨"U2", false, false, ⟨"bo", "bo", "bo"⟩⟩] "bo").find?
        (fun m => decide (bestScoreOf [⟨"U2", false, false, ⟨"bo", "bo", "bo"⟩⟩] "bo" ≤
          scoreOf "bo" m))).map Member.id ∧
    ∀ m ∈ candidatesOf [⟨"U2", false, false, ⟨"bo", "bo", "bo"⟩⟩] "bo",
      scoreOf "bo" m ≤ bestScoreOf [⟨"U2", false, false, ⟨"bo", "bo", "bo"⟩⟩] "bo" :=
  fuzzy_best_pick [⟨"U2", false, false, ⟨"bo", "bo", "bo"⟩⟩] "bo" (by decide) (by decide)

/-- C3: whenever fuzzy resolution returns an id, that id is not `USLACKBOT`
and it is the id of a member of the supplied list that is neither flagged
deleted nor flagged bot (the selected member passed the exclusion filter). -/
theorem fuzzy_excludes_flagged (apiResult : Option (List Member)) (name uid : String)
    (h : find_user_id_by_display_name apiResult name = some uid) :
    uid ≠ "USLACKBOT" ∧ ∃ members m, apiResult = some members ∧ m ∈ members ∧
      m.id = uid ∧ m.deleted = false ∧ m.is_bot = false := by
  cases apiResult with
  | none => simp [find_user_id_by_display_name] at h
  | some members =>
    simp only [find_user_id_by_display_name] at h
    by_cases he : (candidatesOf members name).isEmpty
    · rw [if_pos he] at h; simp at h
    · rw [if_neg he] at h
      cases hsel : (selLoop (scoreOf name) (candidatesOf members name) (none, 0)).1 with
      | none => rw [hsel] at h; simp at h
      | some u =>
        rw [hsel] at h
        simp only [Option.some_inj] at h
        have hmem := selLoop_mem (scoreOf name) (candidatesOf members name) none 0 u hsel
        rcases hmem with hm | hm
        · simp only [candidatesOf, List.mem_filter, Bool.and_eq_true, Bool.not_eq_true',
            beq_eq_false_iff_ne, ne_eq] at hm
          obtain ⟨hmem2, ⟨⟨hid, hdel⟩, hbot⟩, -⟩ := hm
          exact ⟨by rw [← h]; exact hid, members, u, rfl, hmem2, h, hdel, hbot⟩
        · simp at hm

/-- Witness for C3 at a concrete one-member list resolving `al` to `U1`. -/
theorem fuzzy_excludes_flagged_w :
    ("U1" : String) ≠ "USLACKBOT" ∧ ∃ members m,
      (some [⟨"U1", false, false, ⟨"al", "al", "al"⟩⟩] : Option (List Member)) = some members ∧
      m ∈ members ∧ m.id = "U1" ∧ m.deleted = false ∧ m.is_bot = false :=
  fuzzy_excludes_flagged (some [⟨"U1", false, false, ⟨"al", "al", "al"⟩⟩]) "al" "U1"
    (by decide)

/-- C4: for every non-mention token, if the `users.list` call failed (`none`)
or the containment pre-filter retained nothing, resolution returns a null id
with the original token as the mention text, and the handlers carry on with
that literal fallback. -/
theorem fuzzy_fallback_literal (apiResult : Option (List Member)) (token : String)
    (hm : isMentionTok token = false)
    (h : apiResult = none ∨ ∃ members, apiResult = some members ∧
         candidatesOf members (pyLstripAt token) = []) :
    resolveMention apiResult token = (none, token) := by
  have hfind : find_user_id_by_display_name apiResult (pyLstripAt token) = none := by
    rcases h with h | ⟨members, rfl, hc⟩
    · rw [h]; rfl
    · simp [find_user_id_by_display_name, hc]
  simp [resolveMention, hm, hfind]

/-- Witness for C4 at the token `bob` with a failed directory call. -/
theorem fuzzy_fallback_literal_w : resolveMention none "bob" = (none, "bob") :=
  fuzzy_fallback_literal none "bob" (by decide) (Or.inl rfl)

theorem splitOnceBy_sp : ∀ (s a b : List Char),
    splitOnceBy (fun c => c == ' ') s = some (a, b) → s = a ++ ' ' :: b := by
  intro s
  induction s with
  | nil => intro a b h; simp [splitOnceBy] at h
  | cons c cs ih =>
    intro a b h
    simp only [splitOnceBy] at h
    by_cases hc : (c == ' ') = true
    · rw [if_pos hc] at h
      simp only [Option.some_inj, Prod.mk.injEq] at h
      rw [← h.1, ← h.2]
      have : c = ' ' := beq_iff_eq.mp hc
      simp [this]
    · rw [if_neg hc] at h
      cases hm : splitOnceBy (fun c => c == ' ') cs with
      | none => rw [hm] at h; simp at h
      | some x =>
        rw [hm] at h
        simp only [Option.map_some', Option.some_inj] at h
        rcases x with ⟨a2, b2⟩
        have hs := ih a2 b2 hm
        simp only [Prod.mk.injEq] at h
        rw [← h.1, ← h.2]
        simp [hs]

theorem splitByAux_ne_nil (p : Char → Bool) : ∀ (n : Nat) (s : List Char),
    splitByAux p n s ≠ [] := by
  intro n s
  cases n with
  | zero => simp [splitByAux]
  | succ k =>
    simp only [splitByAux]
    cases splitOnceBy p s <;> simp

theorem joinSp_cons (x : List Char) (l : List (List Char)) (h : l ≠ []) :
    joinSp (x :: l) = x ++ ' ' :: joinSp l := by
  cases l with
  | nil => exact absurd rfl h
  | cons y t => rfl

theorem joinSp_pySplit : ∀ (n : Nat) (cs : List Char), joinSp (pySplit n cs) = cs := by
  intro n
  induction n with
  | zero => intro cs; rfl
  | succ k ih =>
    intro cs
    show joinSp (splitByAux (fun c => c == ' ') (k+1) cs) = cs
    simp only [splitByAux]
    cases hs : splitOnceBy (fun c => c == ' ') cs with
    | none => rfl
    | some x =>
      rcases x with ⟨a, b⟩
      rw [joinSp_cons _ _ (splitByAux_ne_nil _ _ _)]
      show a ++ ' ' :: joinSp (pySplit k b) = cs
      rw [ih]
      exact (splitOnceBy_sp cs a b hs).symm

theorem splitByAux_len_le (p : Char → Bool) : ∀ (n : Nat) (s : List Char),
    (splitByAux p n s).length ≤ n + 1 := by
  intro n
  induction n with
  | zero => intro s; simp [splitByAux]
  | succ k ih =>
    intro s
    simp only [splitByAux]
    cases splitOnceBy p s with
    | none => simp
    | some x =>
      simp only [List.length_cons]
      have := ih x.2
      omega

/-- C5 counterexample: the source splits on the single space character, not
on general whitespace.  On a raw text containing a tab, the code's
`split(" ", 2)` yields two fields (so `/mypraise` answers with the usage
string), whereas the whitespace split described by the spec would yield the
three fields `["@Ariel", "Performance", "Great"]`. -/
theorem split_ws_cex :
    pySplitStr 2 "@Ariel\tPerformance Great" = ["@Ariel\tPerformance", "Great"] ∧
    wsSplitStr 2 "@Ariel\tPerformance Great" = ["@Ariel", "Performance", "Great"] ∧
    pySplitStr 2 "@Ariel\tPerformance Great" ≠ wsSplitStr 2 "@Ariel\tPerformance Great" ∧
    handle_mypraise none true "t2" "U8" "@Ariel\tPerformance Great" =
      ⟨[], [], (praiseUsage, 200)⟩ := by
  decide

/-- C5 (amended): the parser splits on the single ASCII space character
(keeping empty fields), stopping after the command's maximum number of
splits; joining the fields back with single spaces reconstructs the raw text
exactly (so the trailing message field retains its embedded whitespace and is
never further split), and at most `maxSplits + 1` fields arise.  The claim's
concrete examples hold: `/mypraise` input `"@Ariel Performance Great job!"`
yields exactly `["@Ariel", "Performance", "Great job!"]`, and input
`"@Ariel Performance"` makes the handler answer with the usage string. -/
theorem split_space_props :
    (∀ (n : Nat) (cs : List Char),
      joinSp (pySplit n cs) = cs ∧ (pySplit n cs).length ≤ n + 1) ∧
    pySplitStr 2 "@Ariel Performance Great job!" = ["@Ariel", "Performance", "Great job!"] ∧
    (∀ (apiResult : Option (List Member)) (sheetOk : Bool) (ts uid : String),
      handle_mypraise apiResult sheetOk ts uid "@Ariel Performance" =
        ⟨[], [], (praiseUsage, 200)⟩) := by
  refine ⟨fun n cs => ⟨joinSp_pySplit n cs, splitByAux_len_le _ n cs⟩, by decide,
    fun _ _ _ _ => rfl⟩

/-- C6: when the text splits into fewer fields than the command's arity
(three for `/mypraise`, two for `/myfeedback`), the handler returns the
literal usage string with HTTP status 200, appends no ledger row and posts
no message. -/
theorem usage_no_side_effect (apiResult : Option (List Member)) (sheetOk : Bool)
    (ts uid text : String) :
    ((pySplitStr 2 text).length < 3 →
      handle_mypraise apiResult sheetOk ts uid text = ⟨[], [], (praiseUsage, 200)⟩) ∧
    ((pySplitStr 1 text).length < 2 →
      handle_myfeedback apiResult sheetOk ts uid text = ⟨[], [], (feedbackUsage, 200)⟩) := by
  constructor
  · intro h
    rcases hp : pySplitStr 2 text with _ | ⟨a, _ | ⟨b, _ | ⟨c, r⟩⟩⟩
    · simp [handle_mypraise, hp]
    · simp [handle_mypraise, hp]
    · simp [handle_mypraise, hp]
    · rw [hp] at h; simp only [List.length_cons] at h; omega
  · intro h
    rcases hp : pySplitStr 1 text with _ | ⟨a, _ | ⟨b, r⟩⟩
    · simp [handle_myfeedback, hp]
    · simp [handle_myfeedback, hp]
    · rw [hp] at h; simp only [List.length_cons] at h; omega

/-- Witness for C6 at the empty text (one field for both grammars). -/
theorem usage_no_side_effect_w :
    handle_mypraise none true "t0" "U9" "" = ⟨[], [], (praiseUsage, 200)⟩ ∧
    handle_myfeedback none true "t0" "U9" "" = ⟨[], [], (feedbackUsage, 200)⟩ :=
  ⟨(usage_no_side_effect none true "t0" "U9" "").1 (by decide),
   (usage_no_side_effect none true "t0" "U9" "").2 (by decide)⟩

/-- C7: the end-to-end `/mypraise` example.  From invoking user `U001` with
text `<@U042> Teamwork "Helped me ship"`, exactly one ledger row
`["praise", "<@U001>", "<@U042>", "Teamwork", "\"Helped me ship\"", ts]` is
appended (kind, from-mention built as `<@` + id + `>`, resolved target
mention, value, message, UTC timestamp last) and exactly one public
announcement containing both mentions and the value is posted, for any state
of the member directory. -/
theorem praise_end_to_end (apiResult : Option (List Member)) (ts : String) :
    handle_mypraise apiResult true ts "U001" "<@U042> Teamwork \"Helped me ship\"" =
      { sheetRows := [["praise", "<@U001>", "<@U042>", "Teamwork",
          "\"Helped me ship\"", ts]],
        posts := [("#s44_core_team",
          "<@U001> praised <@U042> for *Teamwork*:\n> \"Helped me ship\"")],
        response := ("Praise noted and posted to #s44_core_team!", 200) } ∧
    subStr "<@U001>" "<@U001> praised <@U042> for *Teamwork*:\n> \"Helped me ship\"" = true ∧
    subStr "<@U042>" "<@U001> praised <@U042> for *Teamwork*:\n> \"Helped me ship\"" = true ∧
    subStr "Teamwork" "<@U001> praised <@U042> for *Teamwork*:\n> \"Helped me ship\"" = true := by
  exact ⟨rfl, by decide, by decide, by decide⟩

/-- C8: `/myfeedback` never posts to any channel, for any input; and every
ledger row it ever appends has exactly six fields with kind `feedback` first
and an empty value in the fourth position. -/
theorem feedback_never_posts (apiResult : Option (List Member)) (sheetOk : Bool)
    (ts uid text : String) :
    (handle_myfeedback apiResult sheetOk ts uid text).posts = [] ∧
    ∀ r ∈ (handle_myfeedback apiResult sheetOk ts uid text).sheetRows,
      r.length = 6 ∧ r.get? 0 = some "feedback" ∧ r.get? 3 = some "" := by
  rcases hp : pySplitStr 1 text with _ | ⟨a, _ | ⟨b, r⟩⟩
  · constructor
    · simp [handle_myfeedback, hp]
    · intro x hx
      simp [handle_myfeedback, hp] at hx
  · constructor
    · simp [handle_myfeedback, hp]
    · intro x hx
      simp [handle_myfeedback, hp] at hx
  · constructor
    · simp [handle_myfeedback, hp]
    · intro x hx
      simp only [handle_myfeedback, hp, store_in_sheet] at hx
      cases sheetOk with
      | false => simp at hx
      | true =>
        simp only [if_true, List.mem_singleton] at hx
        subst hx
        refine ⟨by simp, by simp, by simp⟩

/-- Witness for C8: a concrete successful invocation whose single stored row
has the required shape. -/
theorem feedback_never_posts_w :
    (handle_myfeedback none true "t1" "U7" "bob hi").posts = [] ∧
    ((["feedback", "<@U7>", "bob", "", "hi", "t1"] : List String).length = 6 ∧
     (["feedback", "<@U7>", "bob", "", "hi", "t1"] : List String).get? 0 = some "feedback" ∧
     (["feedback", "<@U7>", "bob", "", "hi", "t1"] : List String).get? 3 = some "") :=
  ⟨(feedback_never_posts none true "t1" "U7" "bob hi").1,
   (feedback_never_posts none true "t1" "U7" "bob hi").2
     ["feedback", "<@U7>", "bob", "", "hi", "t1"] (by decide)⟩

/-- C9 counterexample: the similarity score of the source
(`SequenceMatcher.ratio`) is not symmetric: on the pair `tide` / `diet` it
returns `1/4` one way and `1/2` the other. -/
theorem score_asym_cex :
    ratioQ "tide".data "diet".data = mkRat 1 4 ∧
    ratioQ "diet".data "tide".data = mkRat 1 2 ∧
    ratioQ "tide".data "diet".data ≠ ratioQ "diet".data "tide".data := by
  decide

/-- C9 (amended): the similarity score is deterministic (equal inputs give
equal values — it is a pure function of its arguments) and always lies in
`[0, 1]`; it is however NOT symmetric in general (see the counterexample). -/
theorem score_props : ∀ a b a2 b2 : List Char, a = a2 → b = b2 →
    ratioQ a b = ratioQ a2 b2 ∧ 0 ≤ ratioQ a b ∧ ratioQ a b ≤ 1 := by
  intro a b a2 b2 h1 h2
  subst h1; subst h2
  exact ⟨rfl, (ratioQ_nonneg_le_one a b).1, (ratioQ_nonneg_le_one a b).2⟩

/-- Witness for C9 (amended) at a concrete pair. -/
theorem score_props_w :
    ratioQ "ab".data "ba".data = ratioQ "ab".data "ba".data ∧
    0 ≤ ratioQ "ab".data "ba".data ∧ ratioQ "ab".data "ba".data ≤ 1 :=
  score_props "ab".data "ba".data "ab".data "ba".data rfl rfl

/-- C10: for every `/mynotez` invocation whose first token is not `get`
(case-insensitively) and whose text splits into two fields, the only side
effect is posting `Note about {person}: {text}` to the originating channel:
no ledger row is appended (despite the `Saved note about …` response), and
the member directory plays no role (the conclusion is the same for every
`apiResult`, and the source never calls `find_user_id_by_display_name`
here). -/
theorem notez_posts_only (apiResult : Option (List Member)) (history : Option (List String))
    (channel text p0 p1 : String)
    (hsplit : pySplitStr 1 text = [p0, p1]) (hget : pyLower p0 ≠ "get") :
    handle_mynotez apiResult history channel text =
      { sheetRows := [],
        posts := [(channel, "Note about " ++ p0 ++ ": " ++ p1)],
        response := ("Saved note about " ++ p0 ++ ".", 200) } := by
  simp [handle_mynotez, hsplit, hget]

/-- Witness for C10 at the concrete text `bob hi`. -/
theorem notez_posts_only_w :
    handle_mynotez none none "C0" "bob hi" =
      { sheetRows := [],
        posts := [("C0", "Note about " ++ "bob" ++ ": " ++ "hi")],
        response := ("Saved note about " ++ "bob" ++ ".", 200) } :=
  notez_posts_only none none "C0" "bob hi" "bob" "hi" (by decide) (by decide)
